import Mathlib

/-!
Verification of the supervised command runner and the incremental-rebuild
decision of the build script (make.py).

The runner is embedded as a deterministic state machine driven by a trace of
poll events: each loop iteration of call_cli either sees a communicate timeout
(carrying the cumulative captured stdout/stderr and the time read afterwards)
or natural completion (carrying the final stdout/stderr and the return code).
Times and modification timestamps are integers (the claims only use ordering
and addition of times, so any linearly ordered time domain works); byte
strings are lists of characters (the byte/character distinction is irrelevant
to the control flow, which only compares lengths of like with like).
-/

namespace Make

/-- Stream tag used when echoing a line of child-process output. -/
inductive Tag where
  | stdout
  | stderr
deriving DecidableEq

/-- Python-style split on the newline character: always returns one more piece
than there are newline characters; the empty string splits to one empty piece. -/
def splitNl : List Char → List (List Char)
  | [] => [[]]
  | c :: rest =>
      if c = '\n' then [] :: splitNl rest
      else
        match splitNl rest with
        | [] => [[c]]
        | l :: ls => (c :: l) :: ls

/-- The slice lines[printed:-1] used by call_cli: the pieces of the split
between index printed and the trailing (possibly incomplete) piece. -/
def newLines (printed : Nat) (s : List Char) : List (List Char) :=
  ((splitNl s).drop printed).dropLast

/-- Mutable loop state of call_cli: the hang deadline, the last observed
stdout/stderr byte lengths, the printed-line counters for both streams, and
the tagged lines echoed so far, in emission order. -/
structure RunState where
  hangEnd : ℤ
  lastStdoutLen : Nat
  lastStderrLen : Nat
  printedStdoutLines : Nat
  printedStderrLines : Nat
  printed : List (Tag × List Char)
deriving DecidableEq

/-- One iteration of the polling loop, as observed at the communicate call:
either TimeoutExpired with the cumulative captured output so far (None when a
stream yielded nothing) and the time.time value read afterwards, or natural
completion with the final output text and the return code. -/
inductive PollEvent where
  | timeoutEv (stdoutPart stderrPart : Option (List Char)) (now : ℤ)
  | finishedEv (stdoutAll stderrAll : List Char) (returncode : Int)
deriving DecidableEq

/-- How the while loop of call_cli ends: the done branch (natural completion),
raising CommandHung, raising CommandTimeout, or the trace stopping early
(an unrelated exception interrupting a poll). -/
inductive LoopExit where
  | finishedLoop (st : RunState) (returncode : Int)
  | hungLoop (runTime : ℤ) (st : RunState)
  | timeoutLoop (st : RunState)
  | exhaustedLoop (st : RunState)
deriving DecidableEq

/-- The condition stdout and len(stdout) greater than the last observed
length: a None (or empty) capture counts as no update. -/
def updatedFlag (last : Nat) (part : Option (List Char)) : Bool :=
  match part with
  | none => false
  | some s => decide (last < s.length)

/-- The stdout half of the TimeoutExpired branch: when the captured stdout
grew, echo lines[printed:-1] with the STDOUT tag, then set the printed-line
counter to the full number of split pieces and remember the new length. -/
def printNewStdout (st : RunState) (part : Option (List Char)) : RunState :=
  match part with
  | none => st
  | some s =>
      if st.lastStdoutLen < s.length then
        { st with
            printed := st.printed ++ (newLines st.printedStdoutLines s).map (fun l => (Tag.stdout, l)),
            printedStdoutLines := (splitNl s).length,
            lastStdoutLen := s.length }
      else st

/-- The stderr half of the TimeoutExpired branch, mirroring printNewStdout. -/
def printNewStderr (st : RunState) (part : Option (List Char)) : RunState :=
  match part with
  | none => st
  | some s =>
      if st.lastStderrLen < s.length then
        { st with
            printed := st.printed ++ (newLines st.printedStderrLines s).map (fun l => (Tag.stderr, l)),
            printedStderrLines := (splitNl s).length,
            lastStderrLen := s.length }
      else st

/-- The while loop of call_cli over a trace of poll events.  On a timeout
event: echo new lines, then reset the hang deadline if anything grew, else
raise CommandHung when now is past the hang deadline; in either case raise
CommandTimeout when now is past the absolute deadline.  On a completion
event: echo the remaining lines[printed:-1] of both streams and stop with
done set.  An empty trace means an unrelated exception interrupted a poll. -/
def runLoop (maxHang absoluteEnd start : ℤ) : RunState → List PollEvent → LoopExit
  | st, [] => LoopExit.exhaustedLoop st
  | st, PollEvent.finishedEv so se rc :: _ =>
      LoopExit.finishedLoop
        { st with printed := st.printed
            ++ (newLines st.printedStdoutLines so).map (fun l => (Tag.stdout, l))
            ++ (newLines st.printedStderrLines se).map (fun l => (Tag.stderr, l)) }
        rc
  | st, PollEvent.timeoutEv so se now :: rest =>
      let soUpd := updatedFlag st.lastStdoutLen so
      let seUpd := updatedFlag st.lastStderrLen se
      let st2 := printNewStderr (printNewStdout st so) se
      if soUpd || seUpd then
        let st3 := { st2 with hangEnd := now + maxHang }
        if absoluteEnd < now then LoopExit.timeoutLoop st3
        else runLoop maxHang absoluteEnd start st3 rest
      else
        if st2.hangEnd < now then LoopExit.hungLoop (now - start) st2
        else if absoluteEnd < now then LoopExit.timeoutLoop st2
        else runLoop maxHang absoluteEnd start st2 rest

/-- Result of one call_cli invocation: success, or one of the three distinct
failures (WrongReturnCode, CommandHung, CommandTimeout) with the data their
constructors carry, or interruption by an unrelated exception.  Each result
carries the tagged lines echoed up to that point. -/
inductive Outcome where
  | success (printed : List (Tag × List Char))
  | wrongCode (command : String) (expected actual : Int) (printed : List (Tag × List Char))
  | hungFail (command : String) (maxHang runTime : ℤ) (printed : List (Tag × List Char))
  | timeoutFail (command : String) (maxTime : ℤ) (printed : List (Tag × List Char))
  | interrupted (printed : List (Tag × List Char))
deriving DecidableEq

/-- Loop state as initialised by call_cli just after spawning: the hang
deadline is now plus max_hang, nothing observed, nothing printed. -/
def initState (maxHang now0 : ℤ) : RunState :=
  { hangEnd := now0 + maxHang, lastStdoutLen := 0, lastStderrLen := 0,
    printedStdoutLines := 0, printedStderrLines := 0, printed := [] }

/-- call_cli: run the polling loop, then validate the return code when an
expectation is set.  The second component records whether the finally block
killed the child, which happens exactly when done was never set. -/
def call_cli (command : String) (maxHang maxTime start now0 : ℤ)
    (events : List PollEvent) (expectedReturnCode : Option Int) : Outcome × Bool :=
  match runLoop maxHang (now0 + maxTime) start (initState maxHang now0) events with
  | LoopExit.finishedLoop st rc =>
      match expectedReturnCode with
      | some e => if rc ≠ e then (Outcome.wrongCode command e rc st.printed, false)
                  else (Outcome.success st.printed, false)
      | none => (Outcome.success st.printed, false)
  | LoopExit.hungLoop rt st => (Outcome.hungFail command maxHang rt st.printed, true)
  | LoopExit.timeoutLoop st => (Outcome.timeoutFail command maxTime st.printed, true)
  | LoopExit.exhaustedLoop st => (Outcome.interrupted st.printed, true)

/-- The default value of the expected_return_code parameter in the source:
an absent argument means an expectation of exit code 0, not None. -/
def call_cli_default_expected : Option Int := some 0

/-- Claim C2: the finally block leaves the child unkilled exactly when the
loop ended through natural completion of the child; on every other exit path
(hang, timeout, or an unrelated exception interrupting a poll) the child is
forcibly terminated before the call returns or propagates. -/
theorem c2_child_killed_iff_not_completed (cmd : String) (mh mt s n0 : ℤ)
    (e : Option Int) (events : List PollEvent) :
    (call_cli cmd mh mt s n0 events e).2 = false ↔
      ∃ st rc, runLoop mh (n0 + mt) s (initState mh n0) events = LoopExit.finishedLoop st rc := by
  unfold call_cli
  cases h : runLoop mh (n0 + mt) s (initState mh n0) events with
  | finishedLoop st rc =>
      cases e with
      | none => simp
      | some v =>
          by_cases hv : rc ≠ v <;> simp [hv]
  | hungLoop rt st => simp
  | timeoutLoop st => simp
  | exhaustedLoop st => simp

/-- Claim C1 (evaluation at the failing input): a run that, at one poll,
observes the chunk a-newline and then completes with total stdout
a-newline-b-newline and exit code 0, well within both limits, succeeds but
echoes only the line a: the completed line b is a complete line of the
stream yet is never echoed, because the printed-line counter was set to the
full number of split pieces, counting the trailing piece as printed. -/
theorem c1_line_skipped_eval :
    call_cli "cmd" 10 60 0 0
      [PollEvent.timeoutEv (some ['a', '\n']) none 1,
       PollEvent.finishedEv ['a', '\n', 'b', '\n'] [] 0] (some 0)
      = (Outcome.success [(Tag.stdout, ['a'])], false) ∧
    ['b'] ∈ (splitNl ['a', '\n', 'b', '\n']).dropLast ∧
    (Tag.stdout, ['b']) ∉ [(Tag.stdout, ['a'])] := by
  refine ⟨by decide, by decide, by decide⟩

/-- Claim C8 (evaluation at the failing input): a run that completes with
stdout a-newline-b (the final line not newline-terminated) and exit code 0,
within both limits, succeeds but echoes only the line a: the final, now
complete, trailing line b is dropped by the slice lines[printed:-1] in the
completion branch. -/
theorem c8_trailing_line_dropped_eval :
    call_cli "cmd" 10 60 0 0
      [PollEvent.finishedEv ['a', '\n', 'b'] [] 0] (some 0)
      = (Outcome.success [(Tag.stdout, ['a'])], false) ∧
    splitNl ['a', '\n', 'b'] = [['a'], ['b']] := by
  refine ⟨by decide, by decide⟩

/-- Claim C5 (counterexample): with the expected-return-code parameter absent
(so equal to the source default, exit code 0), a command that completes
within both limits with exit code 2 does not succeed: it fails with
WrongReturnCode.  Absence of the parameter does not disable validation. -/
theorem c5_default_expected_counterexample :
    call_cli_default_expected = some 0 ∧
    call_cli "cmd" 10 60 0 0 [PollEvent.finishedEv [] [] 2] call_cli_default_expected
      = (Outcome.wrongCode "cmd" 0 2 [], false) ∧
    ∀ p, Outcome.wrongCode "cmd" 0 2 [] ≠ Outcome.success p := by
  refine ⟨rfl, by decide, fun p h => Outcome.noConfusion h⟩

/-- Claim C5 (amended): exit-code validation is skipped exactly when the
caller explicitly passes None: whenever the child completes naturally, the
run succeeds regardless of the actual return code. -/
theorem c5_explicit_none_skips_validation (cmd : String) (mh mt s n0 : ℤ)
    (events : List PollEvent) (st : RunState) (rc : Int)
    (hfin : runLoop mh (n0 + mt) s (initState mh n0) events = LoopExit.finishedLoop st rc) :
    call_cli cmd mh mt s n0 events none = (Outcome.success st.printed, false) := by
  unfold call_cli
  rw [hfin]

/-- Witness for c5_explicit_none_skips_validation: a child completing with
exit code 7 and no output succeeds when None is passed. -/
theorem c5_explicit_none_skips_validation_witness :
    call_cli "cmd" 10 60 0 0 [PollEvent.finishedEv [] [] 7] none
      = (Outcome.success [], false) :=
  c5_explicit_none_skips_validation "cmd" 10 60 0 0
    [PollEvent.finishedEv [] [] 7]
    (initState 10 0) 7 (by decide)

/-- Claim C6: when the child completes naturally and an expected exit code is
set but the actual code differs, the run fails with WrongReturnCode carrying
the command, the expected code and the actual code; and that failure is a
constructor distinct from the hang and timeout failures. -/
theorem c6_wrong_exit_code_failure (cmd : String) (mh mt s n0 : ℤ)
    (events : List PollEvent) (st : RunState) (rc e : Int)
    (hfin : runLoop mh (n0 + mt) s (initState mh n0) events = LoopExit.finishedLoop st rc)
    (hne : rc ≠ e) :
    call_cli cmd mh mt s n0 events (some e) = (Outcome.wrongCode cmd e rc st.printed, false) ∧
    (∀ c2 mh2 rt2 p2 p, Outcome.wrongCode cmd e rc p ≠ Outcome.hungFail c2 mh2 rt2 p2) ∧
    (∀ c2 mt2 p2 p, Outcome.wrongCode cmd e rc p ≠ Outcome.timeoutFail c2 mt2 p2) := by
  refine ⟨?_, fun c2 mh2 rt2 p2 p h => Outcome.noConfusion h,
    fun c2 mt2 p2 p h => Outcome.noConfusion h⟩
  unfold call_cli
  rw [hfin]
  simp [hne]

/-- Witness for c6_wrong_exit_code_failure: a silent child exiting with code 2
against an expectation of 0 yields WrongReturnCode with expected 0, actual 2. -/
theorem c6_wrong_exit_code_failure_witness :
    call_cli "cmd" 10 60 0 0 [PollEvent.finishedEv [] [] 2] (some 0)
      = (Outcome.wrongCode "cmd" 0 2 [], false) ∧
    (∀ c2 mh2 rt2 p2 p, Outcome.wrongCode "cmd" 0 2 p ≠ Outcome.hungFail c2 mh2 rt2 p2) ∧
    (∀ c2 mt2 p2 p, Outcome.wrongCode "cmd" 0 2 p ≠ Outcome.timeoutFail c2 mt2 p2) :=
  c6_wrong_exit_code_failure "cmd" 10 60 0 0 [PollEvent.finishedEv [] [] 2]
    (initState 10 0) 2 0 (by decide) (by decide)

/-- A trace in which every poll sees TimeoutExpired with no captured output. -/
def silentEvents (times : List ℤ) : List PollEvent :=
  times.map (fun t => PollEvent.timeoutEv none none t)

/-- Silent polls at times at or before both the current hang deadline and the
absolute deadline leave the loop state untouched and the loop running. -/
theorem runLoop_silent_skip (mh ae s : ℤ) (st : RunState) (ts : List ℤ)
    (rest : List PollEvent)
    (hts : ∀ u ∈ ts, u ≤ st.hangEnd ∧ u ≤ ae) :
    runLoop mh ae s st (silentEvents ts ++ rest) = runLoop mh ae s st rest := by
  induction ts with
  | nil => rfl
  | cons u ts ih =>
      have hu := hts u (by simp)
      have hrest : ∀ v ∈ ts, v ≤ st.hangEnd ∧ v ≤ ae := fun v hv => hts v (by simp [hv])
      have h1 : ¬ st.hangEnd < u := not_lt.mpr hu.1
      have h2 : ¬ ae < u := not_lt.mpr hu.2
      simp only [silentEvents, List.map_cons, List.cons_append, runLoop,
        updatedFlag, printNewStdout, printNewStderr, Bool.or_self, if_neg h1, if_neg h2]
      simpa [silentEvents] using ih hrest

/-- Claim C3: a command that stays silent past the hang limit while still
running fails with CommandHung carrying the command, the configured hang
limit, and the elapsed run time measured from the start timestamp, provided
the total limit exceeds the hang limit; it does not succeed and does not
fail with CommandTimeout. -/
theorem c3_silent_run_hangs (cmd : String) (mh mt s n0 : ℤ) (e : Option Int)
    (ts : List ℤ) (t : ℤ)
    (hpre : ∀ u ∈ ts, u ≤ n0 + mh) (hlim : mh < mt) (ht : n0 + mh < t) :
    call_cli cmd mh mt s n0 (silentEvents (ts ++ [t])) e
      = (Outcome.hungFail cmd mh (t - s) [], true) := by
  have hts : ∀ u ∈ ts, u ≤ (initState mh n0).hangEnd ∧ u ≤ n0 + mt := by
    intro u hu
    exact ⟨hpre u hu, le_trans (hpre u hu) (by linarith)⟩
  have hsplit : silentEvents (ts ++ [t]) = silentEvents ts ++ silentEvents [t] := by
    simp [silentEvents]
  unfold call_cli
  rw [hsplit, runLoop_silent_skip mh (n0 + mt) s (initState mh n0) ts (silentEvents [t]) hts]
  have hhang : (initState mh n0).hangEnd < t := ht
  simp only [silentEvents, List.map_cons, List.map_nil, runLoop, updatedFlag,
    printNewStdout, printNewStderr, Bool.or_self, if_pos hhang]
  rfl

/-- Witness for c3_silent_run_hangs: with hang limit 10, total limit 60, start
and first poll at time 0, one silent poll at time 5 and a second at time 11,
the run fails with CommandHung after a run time of 11. -/
theorem c3_silent_run_hangs_witness :
    call_cli "cmd" 10 60 0 0 (silentEvents ([5] ++ [11])) (some 0)
      = (Outcome.hungFail "cmd" 10 11 [], true) :=
  c3_silent_run_hangs "cmd" 10 60 0 0 (some 0) [5] 11
    (by decide) (by decide) (by decide)

/-- A trace in which every poll sees TimeoutExpired with a growing cumulative
stdout capture: each entry carries the captured stdout so far and the time. -/
def dribbleEvents (chunks : List (List Char × ℤ)) : List PollEvent :=
  chunks.map (fun x => PollEvent.timeoutEv (some x.1) none x.2)

theorem printNewStderr_none (st : RunState) : printNewStderr st none = st := rfl

theorem updatedFlag_none (n : Nat) : updatedFlag n none = false := rfl

theorem printNewStdout_lastLen (st : RunState) (c : List Char)
    (h : st.lastStdoutLen < c.length) :
    (printNewStdout st (some c)).lastStdoutLen = c.length := by
  simp [printNewStdout, if_pos h]

/-- One loop iteration on a poll whose stdout capture grew: the printing is
done, the hang deadline is reset, and the loop either raises CommandTimeout
(when past the absolute deadline) or continues. -/
theorem runLoop_dribble_step (mh ae s : ℤ) (st : RunState) (c : List Char) (u : ℤ)
    (rest : List PollEvent) (h : st.lastStdoutLen < c.length) :
    runLoop mh ae s st (PollEvent.timeoutEv (some c) none u :: rest) =
      if ae < u then LoopExit.timeoutLoop { printNewStdout st (some c) with hangEnd := u + mh }
      else runLoop mh ae s { printNewStdout st (some c) with hangEnd := u + mh } rest := by
  have hupd : updatedFlag st.lastStdoutLen (some c) = true := by
    simp [updatedFlag, h]
  simp [runLoop, hupd, updatedFlag_none, printNewStderr_none]

/-- On a trace whose stdout captures grow strictly at every poll, the loop
can never raise CommandHung: each poll resets the hang deadline. -/
theorem runLoop_dribble_no_hang (mh ae s : ℤ) :
    ∀ (l : List (List Char × ℤ)) (st : RunState),
    List.Chain (fun a b => a < b) st.lastStdoutLen (l.map (fun y => y.1.length)) →
    ∀ rt st2, runLoop mh ae s st (dribbleEvents l) ≠ LoopExit.hungLoop rt st2 := by
  intro l
  induction l with
  | nil =>
      intro st _ rt st2 h
      exact LoopExit.noConfusion h
  | cons x l ih =>
      intro st hchain rt st2
      obtain ⟨h1, h2⟩ := List.chain_cons.mp hchain
      rw [show dribbleEvents (x :: l)
            = PollEvent.timeoutEv (some x.1) none x.2 :: dribbleEvents l from rfl,
          runLoop_dribble_step mh ae s st x.1 x.2 (dribbleEvents l) h1]
      by_cases hae : ae < x.2
      · rw [if_pos hae]
        exact fun hcon => LoopExit.noConfusion hcon
      · rw [if_neg hae]
        have hlen : ({ printNewStdout st (some x.1) with hangEnd := x.2 + mh } : RunState).lastStdoutLen
            = x.1.length := printNewStdout_lastLen st x.1 h1
        exact ih { printNewStdout st (some x.1) with hangEnd := x.2 + mh }
          (by rw [hlen]; exact h2) rt st2

/-- On a trace whose stdout captures grow strictly at every poll, with all
polls but the last at or before the absolute deadline and the last one past
it, the loop raises CommandTimeout. -/
theorem runLoop_dribble_times_out (mh ae s : ℤ) :
    ∀ (l : List (List Char × ℤ)) (x : List Char × ℤ) (st : RunState),
    List.Chain (fun a b => a < b) st.lastStdoutLen ((l ++ [x]).map (fun y => y.1.length)) →
    (∀ y ∈ l, y.2 ≤ ae) → ae < x.2 →
    ∃ st2, runLoop mh ae s st (dribbleEvents (l ++ [x])) = LoopExit.timeoutLoop st2 := by
  intro l
  induction l with
  | nil =>
      intro x st hchain _ hlast
      obtain ⟨h1, _⟩ := List.chain_cons.mp hchain
      refine ⟨{ printNewStdout st (some x.1) with hangEnd := x.2 + mh }, ?_⟩
      rw [show dribbleEvents ([] ++ [x])
            = PollEvent.timeoutEv (some x.1) none x.2 :: dribbleEvents [] from rfl,
          runLoop_dribble_step mh ae s st x.1 x.2 (dribbleEvents []) h1, if_pos hlast]
  | cons y l ih =>
      intro x st hchain hpre hlast
      obtain ⟨h1, h2⟩ := List.chain_cons.mp hchain
      have hy : ¬ ae < y.2 := not_lt.mpr (hpre y (by simp))
      have hlen : ({ printNewStdout st (some y.1) with hangEnd := y.2 + mh } : RunState).lastStdoutLen
          = y.1.length := printNewStdout_lastLen st y.1 h1
      obtain ⟨st2, hst2⟩ := ih x { printNewStdout st (some y.1) with hangEnd := y.2 + mh }
        (by rw [hlen]; exact h2) (fun z hz => hpre z (by simp [hz])) hlast
      refine ⟨st2, ?_⟩
      rw [show dribbleEvents ((y :: l) ++ [x])
            = PollEvent.timeoutEv (some y.1) none y.2 :: dribbleEvents (l ++ [x]) from rfl,
          runLoop_dribble_step mh ae s st y.1 y.2 (dribbleEvents (l ++ [x])) h1, if_neg hy]
      exact hst2

/-- Claim C4: a command that keeps growing its stdout capture at every poll
but never finishes fails with CommandTimeout carrying the command and the
total limit as soon as a poll happens past the absolute deadline; and on any
such always-growing trace the run never fails with CommandHung, whatever the
poll times are. -/
theorem c4_dribble_times_out_never_hangs (cmd : String) (mh mt s n0 : ℤ)
    (e : Option Int) (l : List (List Char × ℤ)) (x : List Char × ℤ)
    (hchain : List.Chain (fun a b => a < b) 0 ((l ++ [x]).map (fun y => y.1.length)))
    (hpre : ∀ y ∈ l, y.2 ≤ n0 + mt) (hlast : n0 + mt < x.2) :
    (∃ p, (call_cli cmd mh mt s n0 (dribbleEvents (l ++ [x])) e).1
        = Outcome.timeoutFail cmd mt p) ∧
    (∀ (l2 : List (List Char × ℤ)),
      List.Chain (fun a b => a < b) 0 (l2.map (fun y => y.1.length)) →
      ∀ mh2 rt p, (call_cli cmd mh mt s n0 (dribbleEvents l2) e).1
        ≠ Outcome.hungFail cmd mh2 rt p) := by
  constructor
  · obtain ⟨st2, hst2⟩ := runLoop_dribble_times_out mh (n0 + mt) s l x (initState mh n0)
      hchain hpre hlast
    refine ⟨st2.printed, ?_⟩
    unfold call_cli
    rw [hst2]
  · intro l2 hch2 mh2 rt p hcontra
    unfold call_cli at hcontra
    cases h : runLoop mh (n0 + mt) s (initState mh n0) (dribbleEvents l2) with
    | finishedLoop st rc =>
        rw [h] at hcontra
        cases e with
        | none => exact Outcome.noConfusion hcontra
        | some v =>
            by_cases hv : rc ≠ v
            · simp only [if_pos hv] at hcontra
              exact Outcome.noConfusion hcontra
            · simp only [if_neg hv] at hcontra
              exact Outcome.noConfusion hcontra
    | hungLoop rt2 st =>
        exact runLoop_dribble_no_hang mh (n0 + mt) s l2 (initState mh n0) hch2 rt2 st h
    | timeoutLoop st =>
        rw [h] at hcontra
        exact Outcome.noConfusion hcontra
    | exhaustedLoop st =>
        rw [h] at hcontra
        exact Outcome.noConfusion hcontra

/-- Witness for c4_dribble_times_out_never_hangs: stdout grows at a poll at
time 30 and again at a poll at time 61, past the absolute deadline 60, so the
run times out; and no always-growing trace produces CommandHung. -/
theorem c4_dribble_times_out_never_hangs_witness :
    (∃ p, (call_cli "cmd" 10 60 0 0 (dribbleEvents [(['a'], 30), (['a', 'b'], 61)]) (some 0)).1
        = Outcome.timeoutFail "cmd" 60 p) ∧
    (∀ (l2 : List (List Char × ℤ)),
      List.Chain (fun a b => a < b) 0 (l2.map (fun y => y.1.length)) →
      ∀ mh2 rt p, (call_cli "cmd" 10 60 0 0 (dribbleEvents l2) (some 0)).1
        ≠ Outcome.hungFail "cmd" mh2 rt p) := by
  have h := c4_dribble_times_out_never_hangs "cmd" 10 60 0 0 (some 0)
    [(['a'], 30)] (['a', 'b'], 61)
    (List.Chain.cons (by decide) (List.Chain.cons (by decide) List.Chain.nil))
    (by decide) (by decide)
  simpa using h

/-- A filesystem entry under the source directory: a file with its
modification timestamp, or a subdirectory with its entries.  Names are path
components; a directory path is the list of components from the root. -/
inductive Entry where
  | file (name : String) (mtime : ℤ)
  | dir (name : String) (children : List Entry)

/-- Modification timestamps of the plain files at one directory level,
in listing order. -/
def filesAt : List Entry → List ℤ
  | [] => []
  | Entry.file _ m :: rest => m :: filesAt rest
  | Entry.dir _ _ :: rest => filesAt rest

/-- The os.walk traversal below a directory, in top-down depth-first order:
for each subdirectory, its own tuple of (path, file mtimes) followed by the
tuples of everything beneath it, then the following siblings. -/
def walkChildren (base : List String) : List Entry → List (List String × List ℤ)
  | [] => []
  | Entry.file _ _ :: rest => walkChildren base rest
  | Entry.dir n c :: rest =>
      ((base ++ [n], filesAt c) :: walkChildren (base ++ [n]) c) ++ walkChildren base rest

/-- The full os.walk of a directory: its own tuple first, then the traversal
of everything beneath it. -/
def walk (path : List String) (es : List Entry) : List (List String × List ℤ) :=
  (path, filesAt es) :: walkChildren path es

/-- Python max over a list: None on the empty list (where the builtin raises
ValueError), otherwise the maximum element. -/
def pyMax : List ℤ → Option ℤ
  | [] => none
  | x :: xs => some (xs.foldl max x)

/-- The directory_changed_times list of build_typescript: the modification
timestamps of every file recursively under the directory, in walk order. -/
def collectMtimes (path : List String) (es : List Entry) : List ℤ :=
  (walk path es).flatMap (fun d => d.2)

/-- build_typescript on a source tree and the (optional) modification time of
the output file.  Returns none when the max over an empty timestamp list
raises; otherwise some (shouldBuild, cwd) where shouldBuild is the returned
flag and cwd is the working directory handed to the compiler invocation when
one happens.  Because the walk loop variable shadows the directory parameter,
after a walk the compiler runs in the last directory the walk visited. -/
def build_typescript (path : List String) (es : List Entry) (outputMtime : Option ℤ) :
    Option (Bool × Option (List String)) :=
  match outputMtime with
  | none => some (true, some path)
  | some t =>
      match pyMax (collectMtimes path es) with
      | none => none
      | some m =>
          if t < m then some (true, ((walk path es).map Prod.fst).getLast?)
          else some (false, none)

theorem lt_foldl_max_iff (t : ℤ) :
    ∀ (xs : List ℤ) (a : ℤ), t < xs.foldl max a ↔ t < a ∨ ∃ u ∈ xs, t < u := by
  intro xs
  induction xs with
  | nil => intro a; simp
  | cons b xs ih =>
      intro a
      rw [List.foldl_cons, ih]
      simp [lt_max_iff, or_assoc]

theorem pyMax_lt_iff (t : ℤ) (l : List ℤ) (m : ℤ) (h : pyMax l = some m) :
    t < m ↔ ∃ u ∈ l, t < u := by
  cases l with
  | nil => exact absurd h (by simp [pyMax])
  | cons x xs =>
      have hm : m = xs.foldl max x := by
        simpa [pyMax] using h.symm
      rw [hm, lt_foldl_max_iff]
      simp

/-- Claim C7: the staleness decision is true when the output file does not
exist; otherwise, on a source tree with at least one file somewhere under it,
it is true exactly when the maximum file timestamp strictly exceeds the
output timestamp, equivalently when some file (however deeply nested) is
strictly newer than the output. -/
theorem c7_staleness_decision (p : List String) (es : List Entry) (t : ℤ)
    (h : collectMtimes p es ≠ []) :
    build_typescript p es none = some (true, some p) ∧
    ∃ m cwd, pyMax (collectMtimes p es) = some m ∧
      build_typescript p es (some t) = some (decide (t < m), cwd) ∧
      (t < m ↔ ∃ u ∈ collectMtimes p es, t < u) := by
  refine ⟨rfl, ?_⟩
  obtain ⟨x, xs, hx⟩ : ∃ x xs, collectMtimes p es = x :: xs := by
    cases hc : collectMtimes p es with
    | nil => exact absurd hc h
    | cons x xs => exact ⟨x, xs, rfl⟩
  have hm : pyMax (collectMtimes p es) = some (xs.foldl max x) := by
    rw [hx]; rfl
  refine ⟨xs.foldl max x,
    if t < xs.foldl max x then ((walk p es).map Prod.fst).getLast? else none, hm, ?_,
    pyMax_lt_iff t _ _ hm⟩
  unfold build_typescript
  rw [hm]
  by_cases hlt : t < xs.foldl max x
  · simp [hlt]
  · simp [hlt]

/-- Witness for c7_staleness_decision: a directory with one file of timestamp
5 checked against a missing output and against an output of timestamp 3. -/
theorem c7_staleness_decision_witness :
    collectMtimes ["src"] [Entry.file "f" 5] ≠ [] ∧
    (build_typescript ["src"] [Entry.file "f" 5] none = some (true, some ["src"]) ∧
     ∃ m cwd, pyMax (collectMtimes ["src"] [Entry.file "f" 5]) = some m ∧
       build_typescript ["src"] [Entry.file "f" 5] (some 3) = some (decide ((3 : ℤ) < m), cwd) ∧
       ((3 : ℤ) < m ↔ ∃ u ∈ collectMtimes ["src"] [Entry.file "f" 5], (3 : ℤ) < u)) := by
  have h : collectMtimes ["src"] [Entry.file "f" 5] ≠ [] := by
    simp [collectMtimes, walk, walkChildren, filesAt]
  exact ⟨h, c7_staleness_decision ["src"] [Entry.file "f" 5] 3 h⟩

/-- Claim C9: when the output file exists but there is no file anywhere under
the source directory, build_typescript does not produce a boolean: the max
over the empty timestamp list raises an unhandled error. -/
theorem c9_empty_directory_error (p : List String) (es : List Entry) (t : ℤ)
    (h : collectMtimes p es = []) :
    build_typescript p es (some t) = none := by
  unfold build_typescript
  rw [h]
  rfl

/-- Witness for c9_empty_directory_error: a source directory holding one
empty subdirectory and no files, with an existing output of timestamp 0. -/
theorem c9_empty_directory_error_witness :
    collectMtimes ["src"] [Entry.dir "sub" []] = [] ∧
    build_typescript ["src"] [Entry.dir "sub" []] (some 0) = none := by
  have h : collectMtimes ["src"] [Entry.dir "sub" []] = [] := by
    simp [collectMtimes, walk, walkChildren, filesAt]
  exact ⟨h, c9_empty_directory_error ["src"] [Entry.dir "sub" []] 0 h⟩

theorem walkChildren_ne_nil (base : List String) :
    ∀ (es : List Entry) (n : String) (c : List Entry),
    Entry.dir n c ∈ es → walkChildren base es ≠ [] := by
  intro es
  induction es with
  | nil => intro n c hmem; exact absurd hmem (by simp)
  | cons e rest ih =>
      intro n c hmem
      cases e with
      | file nm m =>
          have hmem2 : Entry.dir n c ∈ rest := by
            rcases List.mem_cons.mp hmem with h | h
            · exact absurd h (by intro hx; exact Entry.noConfusion hx)
            · exact h
          simp only [walkChildren]
          exact ih n c hmem2
      | dir nm ch =>
          simp only [walkChildren]
          exact List.cons_ne_nil _ _

theorem walkChildren_path_longer :
    ∀ (k : Nat) (base : List String) (es : List Entry), sizeOf es ≤ k →
    ∀ q ∈ walkChildren base es, base.length < q.1.length := by
  intro k
  induction k with
  | zero =>
      intro base es hs q hq
      cases es with
      | nil => simp [walkChildren] at hq
      | cons e rest =>
          simp only [List.cons.sizeOf_spec] at hs
          omega
  | succ k ih =>
      intro base es hs q hq
      cases es with
      | nil => simp [walkChildren] at hq
      | cons e rest =>
          cases e with
          | file nm m =>
              simp only [walkChildren] at hq
              have hrest : sizeOf rest ≤ k := by
                simp only [List.cons.sizeOf_spec, Entry.file.sizeOf_spec] at hs
                omega
              exact ih base rest hrest q hq
          | dir nm ch =>
              have hch : sizeOf ch ≤ k := by
                simp only [List.cons.sizeOf_spec, Entry.dir.sizeOf_spec] at hs
                omega
              have hrest : sizeOf rest ≤ k := by
                simp only [List.cons.sizeOf_spec, Entry.dir.sizeOf_spec] at hs
                omega
              simp only [walkChildren, List.mem_append, List.mem_cons] at hq
              rcases hq with (hq | hq) | hq
              · rw [hq]
                simp
              · have h1 : (base ++ [nm]).length < q.1.length :=
                  ih (base ++ [nm]) ch hch q hq
                have h2 : base.length < (base ++ [nm]).length := by simp
                exact lt_trans h2 h1
              · exact ih base rest hrest q hq

/-- Claim C10: when the output exists, the source directory has a
subdirectory, and the staleness check decides a rebuild, the compiler runs
with its working directory equal to the last directory visited by the walk,
which is not the source directory the caller passed in. -/
theorem c10_shadowed_build_directory (p : List String) (es : List Entry) (t m : ℤ)
    (hdir : ∃ n c, Entry.dir n c ∈ es)
    (hmax : pyMax (collectMtimes p es) = some m)
    (hstale : t < m) :
    ∃ q, build_typescript p es (some t) = some (true, some q) ∧
      ((walk p es).map Prod.fst).getLast? = some q ∧ q ≠ p := by
  obtain ⟨n, c, hmem⟩ := hdir
  have hne : walkChildren p es ≠ [] := walkChildren_ne_nil p es n c hmem
  obtain ⟨ws, w, hw⟩ : ∃ ws w, walkChildren p es = ws ++ [w] := by
    rcases List.eq_nil_or_concat (walkChildren p es) with h | ⟨ws, w, h⟩
    · exact absurd h hne
    · exact ⟨ws, w, by rw [h, List.concat_eq_append]⟩
  have hlast : ((walk p es).map Prod.fst).getLast? = some w.1 := by
    rw [show walk p es = (p, filesAt es) :: walkChildren p es from rfl, hw,
        List.map_cons, List.map_append,
        show (p :: (ws.map Prod.fst ++ ([w].map Prod.fst)))
          = (p :: ws.map Prod.fst) ++ [w.1] from by simp]
    exact List.getLast?_concat _
  have hwmem : w ∈ walkChildren p es := by
    rw [hw]; simp
  have hlen : p.length < w.1.length :=
    walkChildren_path_longer (sizeOf es) p es le_rfl w hwmem
  have hne2 : w.1 ≠ p := by
    intro hq
    rw [hq] at hlen
    exact lt_irrefl _ hlen
  refine ⟨w.1, ?_, hlast, hne2⟩
  simp only [build_typescript, hmax, if_pos hstale, hlast]

/-- Witness for c10_shadowed_build_directory: a source directory src with one
subdirectory sub holding a file of timestamp 5, against an output of
timestamp 3: the rebuild runs in the walked subdirectory, not in src. -/
theorem c10_shadowed_build_directory_witness :
    pyMax (collectMtimes ["src"] [Entry.dir "sub" [Entry.file "f" 5]]) = some 5 ∧
    ∃ q, build_typescript ["src"] [Entry.dir "sub" [Entry.file "f" 5]] (some 3)
        = some (true, some q) ∧
      ((walk ["src"] [Entry.dir "sub" [Entry.file "f" 5]]).map Prod.fst).getLast? = some q ∧
      q ≠ ["src"] := by
  have hmax : pyMax (collectMtimes ["src"] [Entry.dir "sub" [Entry.file "f" 5]]) = some 5 := by
    simp [collectMtimes, walk, walkChildren, filesAt, pyMax]
  exact ⟨hmax, c10_shadowed_build_directory ["src"] [Entry.dir "sub" [Entry.file "f" 5]] 3 5
    ⟨"sub", [Entry.file "f" 5], by simp⟩ hmax (by decide)⟩

end Make
